import Mathlib

/-!
Shallow embedding of `marketing_bot.py` (STRIGI_KAPUSTU_BOT).

Money amounts, which the Python code keeps as IEEE floats, are modelled as
rationals (`ℚ`); the float literal `0.30` is modelled as `3/10` and `1e-9`
as `1/1000000000`, which is exact arithmetic inside the rounding tolerance
the specification allows.  External stores (the `Marketing_Users` sheet,
the `Marketing_State` sheet, the `BMR_DCA_Log` sheet and the chat delivery
endpoint) are modelled as fields of a `World` value, and every external
write performed by a poll cycle is additionally recorded, in program order,
in a write trace (`List W`) so that cursor-persistence and crash behaviour
can be stated.  Wallet and name bookkeeping fields that no claim touches
are kept only where the poller reads them.
-/

/-- One investor row of the `Marketing_Users` sheet, as parsed by
`get_users` (wallet columns omitted: the poller never reads them). -/
structure Investor where
  chat_id : Int
  user_name : String
  deposit : ℚ
  active : Bool
  pending : ℚ
  bonus_acc : ℚ
  bonus_paid : ℚ
  bonus_to_dep : ℚ
deriving DecidableEq, Repr

/-- One entry of the in-memory `open_positions` map:
`{cum_margin, snapshot, users}`. -/
structure OpenPos where
  cum_margin : ℚ
  snapshot : List (Int × ℚ)
  users : List Int
deriving DecidableEq, Repr

/-- One data row of the `BMR_DCA_Log` sheet, with the string cells the
poller reads (`sheet_dicts` yields raw strings; missing cells are ""). -/
structure LogRow where
  Event : String
  Signal_ID : String
  Cum_Margin_USDT : String
  PNL_Realized_USDT : String
  Pair : String
deriving DecidableEq, Repr

/-- A queued notification.  The Python code formats a text string; the
model records the data that goes into the text (event kind and the numbers
interpolated into it), which is what the claims are about. -/
inductive Msg where
  | opened (pair : String) (used_pct cum_margin : ℚ)
  | added (pair : String) (used_pct cum_margin : ℚ)
  | closed (pair : String) (used_pct cm pool30 profit_pct_30 my_bonus ann_pct ann_usd cur_deposit : ℚ)
deriving DecidableEq, Repr

/-- An external write performed during a poll cycle, in program order:
a roster-row update (`upsert_user_row`), a chat send (`send_all`), or one
of the three `Marketing_State` cell writes done by `set_state`
(`A2` = cursor, `B2` = start timestamp, `C2` = distributed-profit total). -/
inductive W where
  | upsert (chat_id : Int)
  | send (chat_id : Int)
  | setCursor (n : Nat)
  | setStart (s : String)
  | setProfit (q : ℚ)
deriving DecidableEq, Repr

/-- Is this write the persisted-cursor write (`update_acell("A2", ...)`)? -/
def W.isSetCursor : W → Bool
  | .setCursor _ => true
  | _ => false

/-- Is this write a roster-row write? -/
def W.isUpsert : W → Bool
  | .upsert _ => true
  | _ => false

/-- Is this write a chat send? -/
def W.isSend : W → Bool
  | .send _ => true
  | _ => false

/-! ## `to_float` — Python-style lenient numeric parsing

`to_float(x)` does `float(str(x).replace(",", ".").strip())` and returns
`0.0` on `ValueError`/`TypeError`.  The model reproduces `float`'s grammar
for finite decimal literals (sign, digits, one optional decimal point, an
optional exponent); non-finite literals (`inf`, `nan`) and digit-group
underscores are outside the rational model. -/

/-- The whitespace characters stripped by Python's `str.strip` / `float`. -/
def isPySpace (c : Char) : Bool :=
  c == ' ' || c == '\t' || c == '\n' || c == '\r' || c == '\x0b' || c == '\x0c'

/-- Strip `isPySpace` characters from both ends. -/
def pyStrip (l : List Char) : List Char :=
  ((l.dropWhile isPySpace).reverse.dropWhile isPySpace).reverse

/-- `.strip()` on a string, reusing the character-level `pyStrip`. -/
def pyTrim (s : String) : String :=
  String.mk (pyStrip s.data)

/-- `str.replace(",", ".")` on a single character. -/
def commaToDot (c : Char) : Char :=
  if c = ',' then '.' else c

/-- Lower-case the exponent marker. -/
def lowerE (c : Char) : Char :=
  if c = 'E' then 'e' else c

/-- Split a character list at every occurrence of `sep`. -/
def splitOnChar (sep : Char) : List Char → List (List Char)
  | [] => [[]]
  | a :: rest =>
    let r := splitOnChar sep rest
    if a = sep then [] :: r
    else
      match r with
      | [] => [[a]]
      | h :: t => (a :: h) :: t

/-- Numeric value of a digit string. -/
def digitsVal (s : List Char) : Nat :=
  s.foldl (fun a c => a * 10 + (c.toNat - 48)) 0

/-- Is every character a decimal digit? -/
def allDigits (s : List Char) : Bool :=
  s.all (·.isDigit)

/-- A non-empty run of decimal digits, else `none`. -/
def parseDigits (s : List Char) : Option Nat :=
  if s ≠ [] ∧ allDigits s then some (digitsVal s) else none

/-- Mantissa: digits with at most one decimal point, at least one digit. -/
def parseMant (s : List Char) : Option ℚ :=
  match splitOnChar '.' s with
  | [i] => (parseDigits i).map (fun n => (n : ℚ))
  | [i, f] =>
    if i.length + f.length ≠ 0 ∧ allDigits i ∧ allDigits f then
      some ((digitsVal i : ℚ) + (digitsVal f : ℚ) / (10 : ℚ) ^ f.length)
    else none
  | _ => none

/-- Exponent part: optional sign then digits. -/
def parseExpPart (s : List Char) : Option Int :=
  match s with
  | '+' :: rest => (parseDigits rest).map Int.ofNat
  | '-' :: rest => (parseDigits rest).map (fun n : Nat => -(n : Int))
  | _ => (parseDigits s).map Int.ofNat

/-- Unsigned float literal: mantissa with optional `e`/`E` exponent. -/
def parseUnsignedFloat (s : List Char) : Option ℚ :=
  match splitOnChar 'e' (s.map lowerE) with
  | [m] => parseMant m
  | [m, e] =>
    match parseMant m, parseExpPart e with
    | some q, some ex => some (q * (10 : ℚ) ^ ex)
    | _, _ => none
  | _ => none

/-- `float(s)` on an already comma-normalised string: strip whitespace,
optional sign, unsigned literal; `none` models `ValueError`. -/
def pyFloat (l : List Char) : Option ℚ :=
  match pyStrip l with
  | '+' :: rest => parseUnsignedFloat rest
  | '-' :: rest => (parseUnsignedFloat rest).map Neg.neg
  | t => parseUnsignedFloat t

/-- `to_float` from the source: comma→dot, strip, parse; `0.0` on failure. -/
def to_float (x : String) : ℚ :=
  match pyFloat (pyStrip (x.data.map commaToDot)) with
  | some q => q
  | none => 0

/-! ## Roster operations -/

/-- `next((x for x in get_users() if x["chat_id"] == uid), None)`:
first roster row with the given chat id. -/
def findUser : List Investor → Int → Option Investor
  | [], _ => none
  | u :: t, cid => if u.chat_id = cid then some u else findUser t cid

/-- Update the first row with the given chat id (what `find_user_row_idx`
followed by a row update does). -/
def updateFirst (cid : Int) (f : Investor → Investor) : List Investor → List Investor
  | [] => []
  | u :: t => if u.chat_id = cid then f u :: t else u :: updateFirst cid f t

/-- Apply the optional field arguments of `upsert_user_row` to a row. -/
def applyUpd (nm : Option String) (dep : Option ℚ) (act : Option Bool)
    (pend bacc bpaid btd : Option ℚ) (u : Investor) : Investor :=
  { u with
    user_name := nm.getD u.user_name,
    deposit := dep.getD u.deposit,
    active := act.getD u.active,
    pending := pend.getD u.pending,
    bonus_acc := bacc.getD u.bonus_acc,
    bonus_paid := bpaid.getD u.bonus_paid,
    bonus_to_dep := btd.getD u.bonus_to_dep }

/-- `upsert_user_row`: update the first row with this chat id, or append a
fresh row with the Python default cell values. -/
def upsert_user_row (roster : List Investor) (cid : Int) (nm : Option String)
    (dep : Option ℚ) (act : Option Bool) (pend bacc bpaid btd : Option ℚ) :
    List Investor :=
  if (findUser roster cid).isSome then
    updateFirst cid (applyUpd nm dep act pend bacc bpaid btd) roster
  else
    roster ++ [⟨cid, nm.getD "", dep.getD 0, act.getD true, pend.getD 0,
               bacc.getD 0, bpaid.getD 0, btd.getD 0⟩]

/-- Sum of the accrued-bonus fields over the roster. -/
def bonusSum (roster : List Investor) : ℚ :=
  (roster.map (·.bonus_acc)).sum

/-! ## The `open_positions` dict and the per-user message dict -/

/-- `open_positions.get(sid)`. -/
def posLookup : List (String × OpenPos) → String → Option OpenPos
  | [], _ => none
  | (k, x) :: t, sid => if k = sid then some x else posLookup t sid

/-- `open_positions[sid] = v`: replace in place, else append. -/
def posSet : List (String × OpenPos) → String → OpenPos → List (String × OpenPos)
  | [], sid, v => [(sid, v)]
  | (k, x) :: t, sid, v =>
    if k = sid then (sid, v) :: t else (k, x) :: posSet t sid v

/-- `del open_positions[sid]` (guarded by `sid in open_positions`). -/
def posDel (m : List (String × OpenPos)) (sid : String) : List (String × OpenPos) :=
  m.filter (fun p => p.1 != sid)

/-- `per_user_msgs.setdefault(uid, []).append(text)`. -/
def push : List (Int × List Msg) → Int → Msg → List (Int × List Msg)
  | [], uid, msg => [(uid, [msg])]
  | (k, l) :: t, uid, msg =>
    if k = uid then (k, l ++ [msg]) :: t else (k, l) :: push t uid msg

/-- Push the same message to every id of a list, in order. -/
def pushAll (m : List (Int × List Msg)) (ids : List Int) (msg : Msg) :
    List (Int × List Msg) :=
  ids.foldl (fun acc uid => push acc uid msg) m

/-! ## `annual_forecast` -/

/-- `annual_forecast` from the source.  The `datetime` subtraction is
abstracted into the `days` argument (elapsed days since the recorded start,
which the code clamps to at least 1). -/
def annual_forecast (user_bonus_total days user_deposit : ℚ) : ℚ × ℚ :=
  let d := max days 1
  if user_deposit ≤ 0 then (0, 0)
  else
    let annual_pct := user_bonus_total / user_deposit * (365 / d) * 100
    (annual_pct, user_deposit * annual_pct / 100)

/-! ## The poll cycle -/

/-- In-cycle mutable state of `poll_and_broadcast`: the roster sheet, the
local `users_all` variable, the `open_positions` map, the running
`profit30_total`, the `per_user_msgs` dict, and the trace of external
writes made so far. -/
structure Ctx where
  roster : List Investor
  usersAll : List Investor
  openPos : List (String × OpenPos)
  profit30 : ℚ
  msgs : List (Int × List Msg)
  writes : List W
deriving Repr

/-- The pending-deposit commit applied to one row on `OPEN`:
`active` with positive `pending` means deposit := pending, pending := 0. -/
def commitFn (u : Investor) : Investor :=
  if u.active ∧ 0 < u.pending then {u with deposit := u.pending, pending := 0} else u

/-- The `OPEN` loop over `users_all`: for each active user with positive
pending deposit, `upsert_user_row(..., deposit=pending, pending=0.0)` is
written immediately and the local copy is updated in step.  Returns the
new roster, the new `users_all`, and the writes, in order. -/
def commitPendings : List Investor → List Investor →
    List Investor × List Investor × List W
  | roster, [] => (roster, [], [])
  | roster, u :: rest =>
    if u.active ∧ 0 < u.pending then
      let roster' := upsert_user_row roster u.chat_id none (some u.pending) none
        (some 0) none none none
      let r := commitPendings roster' rest
      (r.1, {u with deposit := u.pending, pending := 0} :: r.2.1,
        W.upsert u.chat_id :: r.2.2)
    else
      let r := commitPendings roster rest
      (r.1, u :: r.2.1, r.2.2)

/-- The recipients filter used everywhere: active users with positive
deposit. -/
def activePositive (l : List Investor) : List Investor :=
  l.filter (fun u => u.active && decide ((0 : ℚ) < u.deposit))

/-- The `% of bank used` figure: `100 * cum_margin / max(bank, 1e-9)`. -/
def usedPct (bank cum_margin : ℚ) : ℚ :=
  100 * (cum_margin / max bank (1 / 1000000000))

/-- The `OPEN` branch of the row loop. -/
def handleOpen (bank : ℚ) (sid pair : String) (cum_margin : ℚ) (c : Ctx) : Ctx :=
  let r := commitPendings c.roster c.roster
  let recipients := activePositive r.2.1
  let snap : OpenPos :=
    ⟨cum_margin, recipients.map (fun u => (u.chat_id, u.deposit)),
      recipients.map (·.chat_id)⟩
  let msg := Msg.opened pair (usedPct bank cum_margin) cum_margin
  { roster := r.1, usersAll := r.2.1,
    openPos := posSet c.openPos sid snap,
    profit30 := c.profit30,
    msgs := pushAll c.msgs (recipients.map (·.chat_id)) msg,
    writes := c.writes ++ r.2.2 }

/-- The `ADD` / `RETEST_ADD` branch: `setdefault`, overwrite `cum_margin`,
fall back to `users_all` if the cohort was lost, notify the cohort. -/
def handleAdd (bank : ℚ) (sid pair : String) (cum_margin : ℚ) (c : Ctx) : Ctx :=
  let snap0 := (posLookup c.openPos sid).getD ⟨0, [], []⟩
  let snap1 := {snap0 with cum_margin := cum_margin}
  let snap2 :=
    if snap1.users.isEmpty then
      let recipients := activePositive c.usersAll
      { snap1 with
        users := recipients.map (·.chat_id)
        snapshot := recipients.map (fun u => (u.chat_id, u.deposit)) }
    else snap1
  { c with openPos := posSet c.openPos sid snap2,
           msgs := pushAll c.msgs snap2.users
             (Msg.added pair (usedPct bank cum_margin) cum_margin) }

/-- The accrual loop of the close branch: for each `(uid, dep_snap)` of the
snapshot, re-read the user (skip if gone), credit
`pool30 * dep_snap / total_dep` onto `bonus_acc` (written immediately) and
queue the closure notification. -/
def accrueLoop (days pool30 total_dep u_pct cm profit_pct_30 : ℚ) (pair : String) :
    List (Int × ℚ) → Ctx → Ctx
  | [], c => c
  | (uid, dep_snap) :: rest, c =>
    match findUser c.roster uid with
    | none => accrueLoop days pool30 total_dep u_pct cm profit_pct_30 pair rest c
    | some u =>
      let my_bonus := pool30 * (dep_snap / total_dep)
      let roster' := upsert_user_row c.roster uid none none none none
        (some (u.bonus_acc + my_bonus)) none none
      let af := annual_forecast (u.bonus_acc + my_bonus) days u.deposit
      let msg := Msg.closed pair u_pct cm pool30 profit_pct_30 my_bonus af.1 af.2 u.deposit
      accrueLoop days pool30 total_dep u_pct cm profit_pct_30 pair rest
        { c with roster := roster',
                 msgs := push c.msgs uid msg,
                 writes := c.writes ++ [W.upsert uid] }

/-- The `TP_HIT` / `SL_HIT` / `MANUAL_CLOSE` branch. -/
def handleClose (bank days : ℚ) (sid pair : String) (cum_margin pnl : ℚ) (c : Ctx) : Ctx :=
  let snapO := posLookup c.openPos sid
  let cm := match snapO with | some s => s.cum_margin | none => cum_margin
  let ids0 := match snapO with | some s => s.users | none => []
  let snapshot0 := match snapO with | some s => s.snapshot | none => []
  let fb := ids0.isEmpty
  let usersAll' := if fb then c.roster else c.usersAll
  let snapshot :=
    if fb then (activePositive c.roster).map (fun u => (u.chat_id, u.deposit))
    else snapshot0
  let pool30 := pnl * (3 / 10)
  let sumdep := (snapshot.map Prod.snd).sum
  let total_dep := if sumdep = 0 then 1 else sumdep
  let profit_pct_raw := if 0 < cm then pnl / cm * 100 else 0
  let c1 : Ctx := { c with usersAll := usersAll', profit30 := c.profit30 + pool30 }
  let c2 := accrueLoop days pool30 total_dep (usedPct bank cm) cm
    (profit_pct_raw * (3 / 10)) pair snapshot c1
  { c2 with openPos := posDel c2.openPos sid }

/-- One iteration of `for rec in new_records`. -/
def stepRow (bank days : ℚ) (c : Ctx) (rec : LogRow) : Ctx :=
  let ev := pyTrim rec.Event
  let sid := pyTrim rec.Signal_ID
  let cum := to_float rec.Cum_Margin_USDT
  let pnl := to_float rec.PNL_Realized_USDT
  if ev = "OPEN" then handleOpen bank sid rec.Pair cum c
  else if ev = "ADD" ∨ ev = "RETEST_ADD" then handleAdd bank sid rec.Pair cum c
  else if ev = "TP_HIT" ∨ ev = "SL_HIT" ∨ ev = "MANUAL_CLOSE" then
    handleClose bank days sid rec.Pair cum pnl c
  else c

/-- The external state `poll_and_broadcast` reads and writes: the
`Marketing_State` cells (cursor, start, profit total), the roster sheet,
the in-memory `open_positions`, and the data rows of the log sheet
(`total_rows` in the code counts these plus the header row). -/
structure World where
  last_row : Nat
  start_utc : String
  profit30_total : ℚ
  roster : List Investor
  openPos : List (String × OpenPos)
  log : List LogRow
deriving Repr

/-- `poll_and_broadcast`: first run skips history; an unmoved cursor is a
no-op; otherwise replay the new rows, send the queued messages, and persist
cursor and profit total once at the end.  Returns the new world and the
ordered trace of external writes the cycle performed. -/
def poll_and_broadcast (bank days : ℚ) (now : String) (w : World) : World × List W :=
  let total_rows := w.log.length + 1
  let start0 := if w.start_utc = "" then now else w.start_utc
  if w.last_row = 0 then
    ({ w with last_row := total_rows, profit30_total := 0, start_utc := start0 },
      [W.setCursor total_rows, W.setStart start0, W.setProfit 0])
  else if total_rows ≤ w.last_row then (w, [])
  else
    let c0 : Ctx := ⟨w.roster, w.roster, w.openPos, w.profit30_total, [], []⟩
    let c := (w.log.drop (w.last_row - 1)).foldl (stepRow bank days) c0
    ({ w with last_row := total_rows, profit30_total := c.profit30,
              roster := c.roster, openPos := c.openPos },
      c.writes ++ c.msgs.map (fun p => W.send p.1) ++
        [W.setCursor total_rows, W.setProfit c.profit30])

/-! ## The balance and admin-command operations (C7) -/

/-- `bonus_avail` as computed by `/balance` and every payout guard:
`max(0.0, bonus_acc - bonus_paid - bonus_to_dep)`. -/
def bonus_avail (u : Investor) : ℚ :=
  max 0 (u.bonus_acc - u.bonus_paid - u.bonus_to_dep)

/-- `/pay_bonus <chat_id> <сумма|all>`; `req = none` models the NaN
sentinel produced by `parse_money("all")`. -/
def pay_bonus (roster : List Investor) (cid : Int) (req : Option ℚ) : List Investor :=
  match findUser roster cid with
  | none => roster
  | some u =>
    let avail := bonus_avail u
    let amount := match req with | none => avail | some r => r
    if amount ≤ 0 ∨ avail + 1 / 1000000000 < amount then roster
    else upsert_user_row roster cid none none none none none
      (some (u.bonus_paid + amount)) none

/-- `/apply_from_bonus <chat_id> <сумма|all>`. -/
def apply_from_bonus (roster : List Investor) (cid : Int) (req : Option ℚ) : List Investor :=
  match findUser roster cid with
  | none => roster
  | some u =>
    let avail := bonus_avail u
    let amount := match req with | none => avail | some r => r
    if amount ≤ 0 ∨ avail + 1 / 1000000000 < amount then roster
    else upsert_user_row roster cid none none none (some (u.deposit + amount)) none none
      (some (u.bonus_to_dep + amount))

/-- `/pay_all <chat_id>`: pay deposit plus available bonus, zero the
deposit, mark bonus as paid, deactivate. -/
def pay_all (roster : List Investor) (cid : Int) : List Investor :=
  match findUser roster cid with
  | none => roster
  | some u =>
    upsert_user_row roster cid none (some 0) (some false) none none
      (some (u.bonus_paid + bonus_avail u)) none

/-- `/setdep <chat_id> <депозит>`: overwrite the pending deposit. -/
def setdep (roster : List Investor) (cid : Int) (dep : ℚ) : List Investor :=
  upsert_user_row roster cid none none none (some dep) none none none

/-- One roster-mutating operation, for quantifying over operation
sequences: the admin commands plus the poller's own two mutations
(pending-commit on `OPEN`, bonus accrual on close). -/
inductive RosterOp where
  | payBonus (cid : Int) (req : Option ℚ)
  | applyFromBonus (cid : Int) (req : Option ℚ)
  | payAll (cid : Int)
  | setPending (cid : Int) (dep : ℚ)
  | commitPending
  | accrue (cid : Int) (amt : ℚ)
deriving Repr

/-- Apply one `RosterOp`. -/
def applyOp (roster : List Investor) (op : RosterOp) : List Investor :=
  match op with
  | .payBonus cid req => pay_bonus roster cid req
  | .applyFromBonus cid req => apply_from_bonus roster cid req
  | .payAll cid => pay_all roster cid
  | .setPending cid dep => setdep roster cid dep
  | .commitPending => (commitPendings roster roster).1
  | .accrue cid amt =>
    match findUser roster cid with
    | none => roster
    | some u => upsert_user_row roster cid none none none none
        (some (u.bonus_acc + amt)) none none

/-- Apply a sequence of operations in order. -/
def applyOps (ops : List RosterOp) (roster : List Investor) : List Investor :=
  ops.foldl applyOp roster

/-! ## Concrete fixtures used by the witness theorems

These mirror the worked scenario of the specification: investors A ($600)
and B ($400), reference bank $1000, an `OPEN` at cumulative margin 200 and
a `TP_HIT` with realized PnL $50. -/

def invA : Investor := ⟨1, "A", 600, true, 0, 0, 0, 0⟩

def invB : Investor := ⟨2, "B", 400, true, 0, 0, 0, 0⟩

def invPend : Investor := ⟨3, "C", 100, true, 300, 0, 0, 0⟩

def rowOpenS1 : LogRow := ⟨"OPEN", "S1", "200", "", "EURC/USDT"⟩

def rowAddS1 : LogRow := ⟨"ADD", "S1", "400", "", "EURC/USDT"⟩

def rowTpS1 : LogRow := ⟨"TP_HIT", "S1", "200", "50", "EURC/USDT"⟩

def snapS1 : OpenPos := ⟨200, [(1, 600), (2, 400)], [1, 2]⟩

def ctxS1 : Ctx := ⟨[invA, invB], [invA, invB], [("S1", snapS1)], 0, [], []⟩

def ctxMiss : Ctx := ⟨[invB], [invB], [("S1", snapS1)], 0, [], []⟩

def ctxNone : Ctx := ⟨[invA, invB], [invA, invB], [], 0, [], []⟩

def ctxPend : Ctx := ⟨[invPend, invB], [invPend, invB], [], 0, [], []⟩

def worldConv : World := ⟨3, "t0", 15, [invA, invB], [], [rowOpenS1, rowTpS1]⟩

def worldFresh : World := ⟨0, "", 7, [invA, invB], [], [rowOpenS1, rowTpS1]⟩

def worldRun : World := ⟨1, "t0", 0, [invA, invB], [], [rowOpenS1, rowTpS1]⟩

/-! ## Helper lemmas -/

theorem applyUpd_bacc (v : ℚ) (u : Investor) :
    applyUpd none none none none (some v) none none u = {u with bonus_acc := v} := rfl

theorem applyUpd_dep_pend (d p : ℚ) (u : Investor) :
    applyUpd none (some d) none (some p) none none none u =
      {u with deposit := d, pending := p} := rfl

theorem findUser_isSome_of_mem {l : List Investor} {u : Investor} (h : u ∈ l) :
    (findUser l u.chat_id).isSome := by
  induction l with
  | nil => cases h
  | cons a t ih =>
    rcases List.mem_cons.mp h with h | h
    · subst h; simp [findUser]
    · by_cases hc : a.chat_id = u.chat_id <;> simp [findUser, hc, ih h]

theorem updateFirst_cons_pos {cid : Int} {f : Investor → Investor} {a : Investor}
    {t : List Investor} (h : a.chat_id = cid) :
    updateFirst cid f (a :: t) = f a :: t := by
  simp [updateFirst, h]

theorem updateFirst_cons_neg {cid : Int} {f : Investor → Investor} {a : Investor}
    {t : List Investor} (h : ¬a.chat_id = cid) :
    updateFirst cid f (a :: t) = a :: updateFirst cid f t := by
  simp [updateFirst, h]

theorem findUser_cons_pos {x : Int} {a : Investor} {t : List Investor}
    (h : a.chat_id = x) : findUser (a :: t) x = some a := by
  simp [findUser, h]

theorem findUser_cons_neg {x : Int} {a : Investor} {t : List Investor}
    (h : ¬a.chat_id = x) : findUser (a :: t) x = findUser t x := by
  simp [findUser, h]

theorem findUser_updateFirst_of_ne {cid x : Int} {f : Investor → Investor}
    (hf : ∀ v, (f v).chat_id = v.chat_id) (hx : x ≠ cid) (l : List Investor) :
    findUser (updateFirst cid f l) x = findUser l x := by
  induction l with
  | nil => rfl
  | cons a t ih =>
    by_cases hc : a.chat_id = cid
    · have h1 : ¬(f a).chat_id = x := by rw [hf a, hc]; exact fun h => hx h.symm
      have h2 : ¬a.chat_id = x := by rw [hc]; exact fun h => hx h.symm
      rw [updateFirst_cons_pos hc, findUser_cons_neg h1, findUser_cons_neg h2]
    · by_cases hax : a.chat_id = x
      · rw [updateFirst_cons_neg hc, findUser_cons_pos hax, findUser_cons_pos hax]
      · rw [updateFirst_cons_neg hc, findUser_cons_neg hax, findUser_cons_neg hax, ih]

theorem findUser_updateFirst_self {cid : Int} {f : Investor → Investor} {u : Investor}
    (hf : ∀ v, (f v).chat_id = v.chat_id) {l : List Investor}
    (h : findUser l cid = some u) :
    findUser (updateFirst cid f l) cid = some (f u) := by
  induction l with
  | nil => simp [findUser] at h
  | cons a t ih =>
    by_cases hc : a.chat_id = cid
    · rw [findUser_cons_pos hc] at h
      injection h with h2
      subst h2
      rw [updateFirst_cons_pos hc, findUser_cons_pos (by rw [hf a, hc])]
    · rw [findUser_cons_neg hc] at h
      rw [updateFirst_cons_neg hc, findUser_cons_neg hc, ih h]

theorem updateFirst_of_none {cid : Int} {f : Investor → Investor} {l : List Investor}
    (h : findUser l cid = none) : updateFirst cid f l = l := by
  induction l with
  | nil => rfl
  | cons a t ih =>
    by_cases hc : a.chat_id = cid
    · rw [findUser_cons_pos hc] at h; cases h
    · rw [findUser_cons_neg hc] at h
      rw [updateFirst_cons_neg hc, ih h]

theorem findUser_updateFirst_isSome {cid x : Int} {f : Investor → Investor}
    (hf : ∀ v, (f v).chat_id = v.chat_id) (l : List Investor) :
    (findUser (updateFirst cid f l) x).isSome = (findUser l x).isSome := by
  by_cases hx : x = cid
  · subst hx
    cases h : findUser l x with
    | none => rw [updateFirst_of_none h, h]
    | some u => rw [findUser_updateFirst_self hf h]; rfl
  · rw [findUser_updateFirst_of_ne hf hx]

theorem applyUpd_chat_id (nm : Option String) (dep : Option ℚ) (act : Option Bool)
    (pend bacc bpaid btd : Option ℚ) (u : Investor) :
    (applyUpd nm dep act pend bacc bpaid btd u).chat_id = u.chat_id := rfl

theorem upsert_of_found {roster : List Investor} {cid : Int} (nm : Option String)
    (dep : Option ℚ) (act : Option Bool) (pend bacc bpaid btd : Option ℚ)
    (h : (findUser roster cid).isSome) :
    upsert_user_row roster cid nm dep act pend bacc bpaid btd =
      updateFirst cid (applyUpd nm dep act pend bacc bpaid btd) roster := by
  simp [upsert_user_row, h]

theorem bonusSum_cons (u : Investor) (t : List Investor) :
    bonusSum (u :: t) = u.bonus_acc + bonusSum t := by
  simp [bonusSum]

theorem bonusSum_updateFirst {cid : Int} {u : Investor} {l : List Investor}
    (h : findUser l cid = some u) (f : Investor → Investor) :
    bonusSum (updateFirst cid f l) = bonusSum l + ((f u).bonus_acc - u.bonus_acc) := by
  induction l with
  | nil => simp [findUser] at h
  | cons a t ih =>
    by_cases hc : a.chat_id = cid
    · rw [findUser_cons_pos hc] at h
      injection h with h2
      subst h2
      rw [updateFirst_cons_pos hc, bonusSum_cons, bonusSum_cons]
      ring
    · rw [findUser_cons_neg hc] at h
      rw [updateFirst_cons_neg hc, bonusSum_cons, bonusSum_cons, ih h]
      ring

theorem posLookup_posSet_self (m : List (String × OpenPos)) (sid : String) (v : OpenPos) :
    posLookup (posSet m sid v) sid = some v := by
  induction m with
  | nil => simp [posSet, posLookup]
  | cons p t ih =>
    obtain ⟨k, x⟩ := p
    by_cases h : k = sid
    · simp [posSet, h, posLookup]
    · simp [posSet, h, posLookup, ih]

theorem push_fst_mem (m : List (Int × List Msg)) (uid : Int) (msg : Msg) (x : Int) :
    x ∈ (push m uid msg).map Prod.fst ↔ x = uid ∨ x ∈ m.map Prod.fst := by
  induction m with
  | nil => simp [push]
  | cons p t ih =>
    obtain ⟨k, l⟩ := p
    by_cases h : k = uid
    · subst h
      simp [push]
    · simp [push, h, ih]
      tauto

theorem updateFirst_append_of_not_mem {cid : Int} {f : Investor → Investor}
    {pre : List Investor} (l : List Investor)
    (h : cid ∉ pre.map (·.chat_id)) :
    updateFirst cid f (pre ++ l) = pre ++ updateFirst cid f l := by
  induction pre with
  | nil => rfl
  | cons a t ih =>
    simp only [List.map_cons, List.mem_cons, not_or] at h
    have ha : ¬a.chat_id = cid := fun e => h.1 e.symm
    rw [List.cons_append, updateFirst_cons_neg ha, List.cons_append, ih h.2]

theorem commitPendings_writes : ∀ (post roster : List Investor) (x : W),
    x ∈ (commitPendings roster post).2.2 → x.isUpsert = true := by
  intro post
  induction post with
  | nil =>
    intro roster x hx
    simp [commitPendings] at hx
  | cons u rest ih =>
    intro roster x hx
    by_cases hcond : u.active ∧ 0 < u.pending
    · simp only [commitPendings, if_pos hcond] at hx
      rcases List.mem_cons.mp hx with h | h
      · subst h; rfl
      · exact ih _ x h
    · simp only [commitPendings, if_neg hcond] at hx
      exact ih _ x hx

theorem commitPendings_spec : ∀ (post pre : List Investor),
    (((pre ++ post).map (·.chat_id)).Nodup) →
    commitPendings (pre ++ post) post =
      (pre ++ post.map commitFn, post.map commitFn,
       (post.filter (fun u => decide (u.active ∧ 0 < u.pending))).map
         (fun u => W.upsert u.chat_id)) := by
  intro post
  induction post with
  | nil =>
    intro pre h
    simp [commitPendings]
  | cons u rest ih =>
    intro pre h
    have hids : ((pre.map (·.chat_id)) ++ (u.chat_id :: rest.map (·.chat_id))).Nodup := by
      simpa using h
    have hne : u.chat_id ∉ pre.map (·.chat_id) := by
      intro hmem
      exact ((List.nodup_append.mp hids).2.2 hmem) (List.mem_cons_self _ _)
    have hfound : (findUser (pre ++ u :: rest) u.chat_id).isSome :=
      findUser_isSome_of_mem (by simp)
    by_cases hcond : u.active ∧ 0 < u.pending
    · simp only [commitPendings, if_pos hcond]
      rw [upsert_of_found _ _ _ _ _ _ _ hfound,
        updateFirst_append_of_not_mem _ hne, updateFirst_cons_pos rfl,
        applyUpd_dep_pend]
      have hstep : pre ++ {u with deposit := u.pending, pending := 0} :: rest =
          (pre ++ [{u with deposit := u.pending, pending := 0}]) ++ rest := by
        simp
      have hnodup2 : (((pre ++ [{u with deposit := u.pending, pending := 0}]) ++ rest).map
          (fun v : Investor => v.chat_id)).Nodup := by
        simpa using h
      rw [hstep, ih _ hnodup2]
      have hc : commitFn u = {u with deposit := u.pending, pending := 0} := by
        simp [commitFn, hcond]
      simp [hc, hcond]
    · simp only [commitPendings, if_neg hcond]
      have hstep : pre ++ u :: rest = (pre ++ [u]) ++ rest := by simp
      have hnodup2 : (((pre ++ [u]) ++ rest).map (·.chat_id)).Nodup := by
        simpa using h
      rw [hstep, ih _ hnodup2]
      have hc : commitFn u = u := by simp [commitFn, hcond]
      simp [hc, hcond]

theorem accrueLoop_cons_some {d p td up cm pp : ℚ} {pr : String} {uid : Int} {dep : ℚ}
    {rest : List (Int × ℚ)} {c : Ctx} {u : Investor}
    (hf : findUser c.roster uid = some u) :
    accrueLoop d p td up cm pp pr ((uid, dep) :: rest) c =
      accrueLoop d p td up cm pp pr rest
        { c with
          roster := updateFirst uid
            (applyUpd none none none none (some (u.bonus_acc + p * (dep / td))) none none)
            c.roster
          msgs := push c.msgs uid (Msg.closed pr up cm p pp (p * (dep / td))
            (annual_forecast (u.bonus_acc + p * (dep / td)) d u.deposit).1
            (annual_forecast (u.bonus_acc + p * (dep / td)) d u.deposit).2 u.deposit)
          writes := c.writes ++ [W.upsert uid] } := by
  simp only [accrueLoop, hf]
  rw [upsert_of_found _ _ _ _ _ _ _ (by rw [hf]; rfl)]

theorem accrueLoop_cons_none {d p td up cm pp : ℚ} {pr : String} {uid : Int} {dep : ℚ}
    {rest : List (Int × ℚ)} {c : Ctx}
    (hf : findUser c.roster uid = none) :
    accrueLoop d p td up cm pp pr ((uid, dep) :: rest) c =
      accrueLoop d p td up cm pp pr rest c := by
  simp only [accrueLoop, hf]

theorem accrue_frame (d p td up cm pp : ℚ) (pr : String) :
    ∀ (snapshot : List (Int × ℚ)) (c : Ctx),
      (accrueLoop d p td up cm pp pr snapshot c).openPos = c.openPos ∧
      (accrueLoop d p td up cm pp pr snapshot c).profit30 = c.profit30 ∧
      (accrueLoop d p td up cm pp pr snapshot c).usersAll = c.usersAll := by
  intro snapshot
  induction snapshot with
  | nil => intro c; exact ⟨rfl, rfl, rfl⟩
  | cons hd t ih =>
    intro c
    obtain ⟨uid, dep⟩ := hd
    cases hf : findUser c.roster uid with
    | none => rw [accrueLoop_cons_none hf]; exact ih c
    | some u => rw [accrueLoop_cons_some hf]; exact ih _

theorem accrue_isSome (d p td up cm pp : ℚ) (pr : String) :
    ∀ (snapshot : List (Int × ℚ)) (c : Ctx) (x : Int),
      (findUser (accrueLoop d p td up cm pp pr snapshot c).roster x).isSome =
        (findUser c.roster x).isSome := by
  intro snapshot
  induction snapshot with
  | nil => intro c x; rfl
  | cons hd t ih =>
    intro c x
    obtain ⟨uid, dep⟩ := hd
    cases hf : findUser c.roster uid with
    | none => rw [accrueLoop_cons_none hf]; exact ih c x
    | some u =>
      rw [accrueLoop_cons_some hf, ih _ x]
      exact @findUser_updateFirst_isSome uid x
        (applyUpd none none none none (some (u.bonus_acc + p * (dep / td))) none none)
        (fun v => rfl) c.roster

theorem findUser_updateBacc_isSome (cid x : Int) (v : ℚ) (l : List Investor) :
    (findUser (updateFirst cid (applyUpd none none none none (some v) none none) l) x).isSome
      = (findUser l x).isSome :=
  @findUser_updateFirst_isSome cid x
    (applyUpd none none none none (some v) none none) (fun _ => rfl) l

theorem findUser_updateBacc_of_ne {cid x : Int} (hx : x ≠ cid) (v : ℚ) (l : List Investor) :
    findUser (updateFirst cid (applyUpd none none none none (some v) none none) l) x
      = findUser l x :=
  @findUser_updateFirst_of_ne cid x
    (applyUpd none none none none (some v) none none) (fun _ => rfl) hx l

theorem findUser_updateBacc_self {cid : Int} {u : Investor} {l : List Investor}
    (hf : findUser l cid = some u) (v : ℚ) :
    findUser (updateFirst cid (applyUpd none none none none (some v) none none) l) cid
      = some {u with bonus_acc := v} :=
  @findUser_updateFirst_self cid
    (applyUpd none none none none (some v) none none) u (fun _ => rfl) l hf

theorem bonusSum_updateBacc {cid : Int} {u : Investor} {l : List Investor}
    (hf : findUser l cid = some u) (b : ℚ) :
    bonusSum (updateFirst cid (applyUpd none none none none (some (u.bonus_acc + b)) none none) l)
      = bonusSum l + b := by
  rw [bonusSum_updateFirst hf]
  simp [applyUpd]

theorem accrue_not_mem (d p td up cm pp : ℚ) (pr : String) :
    ∀ (snapshot : List (Int × ℚ)) (c : Ctx) (x : Int), x ∉ snapshot.map Prod.fst →
      findUser (accrueLoop d p td up cm pp pr snapshot c).roster x = findUser c.roster x := by
  intro snapshot
  induction snapshot with
  | nil => intro c x _; rfl
  | cons hd t ih =>
    intro c x hx
    obtain ⟨uid, dep⟩ := hd
    simp only [List.map_cons, List.mem_cons, not_or] at hx
    cases hf : findUser c.roster uid with
    | none => rw [accrueLoop_cons_none hf]; exact ih c x hx.2
    | some u =>
      rw [accrueLoop_cons_some hf, ih _ x hx.2]
      exact findUser_updateBacc_of_ne hx.1 _ c.roster

theorem accrue_member (d p td up cm pp : ℚ) (pr : String) :
    ∀ (snapshot : List (Int × ℚ)) (c : Ctx) (uid : Int) (dep : ℚ) (u : Investor),
      (snapshot.map Prod.fst).Nodup → (uid, dep) ∈ snapshot →
      findUser c.roster uid = some u →
      findUser (accrueLoop d p td up cm pp pr snapshot c).roster uid =
        some {u with bonus_acc := u.bonus_acc + p * (dep / td)} := by
  intro snapshot
  induction snapshot with
  | nil => intro c uid dep u _ hmem _; cases hmem
  | cons hd t ih =>
    intro c uid dep u hnd hmem hf
    obtain ⟨uid1, dep1⟩ := hd
    simp only [List.map_cons, List.nodup_cons] at hnd
    rcases List.mem_cons.mp hmem with heq | hmem'
    · rw [Prod.mk.injEq] at heq
      obtain ⟨rfl, rfl⟩ := heq
      rw [accrueLoop_cons_some hf, accrue_not_mem d p td up cm pp pr t _ uid hnd.1]
      exact findUser_updateBacc_self hf _
    · have hxne : uid ≠ uid1 := by
        intro e
        exact hnd.1 (e ▸ List.mem_map.mpr ⟨(uid, dep), hmem', rfl⟩)
      cases hf1 : findUser c.roster uid1 with
      | none => rw [accrueLoop_cons_none hf1]; exact ih c uid dep u hnd.2 hmem' hf
      | some u1 =>
        rw [accrueLoop_cons_some hf1]
        refine ih _ uid dep u hnd.2 hmem' ?_
        rw [show ({ c with
            roster := updateFirst uid1
              (applyUpd none none none none (some (u1.bonus_acc + p * (dep1 / td))) none none)
              c.roster,
            msgs := push c.msgs uid1 (Msg.closed pr up cm p pp (p * (dep1 / td))
              (annual_forecast (u1.bonus_acc + p * (dep1 / td)) d u1.deposit).1
              (annual_forecast (u1.bonus_acc + p * (dep1 / td)) d u1.deposit).2 u1.deposit),
            writes := c.writes ++ [W.upsert uid1] } : Ctx).roster = updateFirst uid1
              (applyUpd none none none none (some (u1.bonus_acc + p * (dep1 / td))) none none)
              c.roster from rfl]
        rw [findUser_updateBacc_of_ne hxne _ c.roster]
        exact hf

theorem accrue_bonusSum (d p td up cm pp : ℚ) (pr : String) :
    ∀ (snapshot : List (Int × ℚ)) (c : Ctx),
      bonusSum (accrueLoop d p td up cm pp pr snapshot c).roster =
        bonusSum c.roster +
          ((snapshot.filter (fun q => (findUser c.roster q.1).isSome)).map
            (fun q => p * (q.2 / td))).sum := by
  intro snapshot
  induction snapshot with
  | nil => intro c; simp [accrueLoop]
  | cons hd t ih =>
    intro c
    obtain ⟨uid, dep⟩ := hd
    cases hf : findUser c.roster uid with
    | none =>
      rw [accrueLoop_cons_none hf, ih c]
      simp [List.filter_cons, hf]
    | some u =>
      rw [accrueLoop_cons_some hf, ih _]
      dsimp only
      rw [bonusSum_updateBacc hf]
      have h2 : t.filter (fun q => (findUser (updateFirst uid
            (applyUpd none none none none (some (u.bonus_acc + p * (dep / td))) none none)
            c.roster) q.1).isSome) = t.filter (fun q => (findUser c.roster q.1).isSome) := by
        apply List.filter_congr
        intro q _
        rw [findUser_updateBacc_isSome]
      rw [h2, List.filter_cons]
      simp only [hf]
      simp
      ring

theorem accrue_keys (d p td up cm pp : ℚ) (pr : String) :
    ∀ (snapshot : List (Int × ℚ)) (c : Ctx) (x : Int),
      (x ∈ (accrueLoop d p td up cm pp pr snapshot c).msgs.map Prod.fst ↔
        x ∈ c.msgs.map Prod.fst ∨
          ∃ q ∈ snapshot, q.1 = x ∧ (findUser c.roster q.1).isSome) := by
  intro snapshot
  induction snapshot with
  | nil => intro c x; simp [accrueLoop]
  | cons hd t ih =>
    intro c x
    obtain ⟨uid, dep⟩ := hd
    cases hf : findUser c.roster uid with
    | none =>
      rw [accrueLoop_cons_none hf, ih c x]
      simp [hf]
    | some u =>
      rw [accrueLoop_cons_some hf, ih _ x]
      dsimp only
      simp only [push_fst_mem, findUser_updateBacc_isSome]
      simp [hf]
      tauto

theorem accrue_writes (d p td up cm pp : ℚ) (pr : String) :
    ∀ (snapshot : List (Int × ℚ)) (c : Ctx),
      ∃ l, (accrueLoop d p td up cm pp pr snapshot c).writes = c.writes ++ l ∧
        ∀ x ∈ l, x.isUpsert = true := by
  intro snapshot
  induction snapshot with
  | nil =>
    intro c
    exact ⟨[], by simp [accrueLoop], fun x hx => absurd hx (List.not_mem_nil x)⟩
  | cons hd t ih =>
    intro c
    obtain ⟨uid, dep⟩ := hd
    cases hf : findUser c.roster uid with
    | none => rw [accrueLoop_cons_none hf]; exact ih c
    | some u =>
      rw [accrueLoop_cons_some hf]
      obtain ⟨l, hl, hup⟩ := ih _
      refine ⟨W.upsert uid :: l, ?_, ?_⟩
      · rw [hl]
        dsimp only
        simp
      · intro x hx
        rcases List.mem_cons.mp hx with h | h
        · subst h; rfl
        · exact hup x h

theorem accrue_writes_eq (d p td up cm pp : ℚ) (pr : String) :
    ∀ (snapshot : List (Int × ℚ)) (c : Ctx),
      (accrueLoop d p td up cm pp pr snapshot c).writes =
        c.writes ++ (snapshot.filter (fun q => (findUser c.roster q.1).isSome)).map
          (fun q => W.upsert q.1) := by
  intro snapshot
  induction snapshot with
  | nil => intro c; simp [accrueLoop]
  | cons hd t ih =>
    intro c
    obtain ⟨uid, dep⟩ := hd
    cases hf : findUser c.roster uid with
    | none =>
      rw [accrueLoop_cons_none hf, ih c]
      simp [List.filter_cons, hf]
    | some u =>
      rw [accrueLoop_cons_some hf, ih _]
      dsimp only
      have h2 : t.filter (fun q => (findUser (updateFirst uid
            (applyUpd none none none none (some (u.bonus_acc + p * (dep / td))) none none)
            c.roster) q.1).isSome) = t.filter (fun q => (findUser c.roster q.1).isSome) := by
        apply List.filter_congr
        intro q _
        rw [findUser_updateBacc_isSome]
      rw [h2, List.filter_cons]
      simp [hf]

theorem handleOpen_writes (bank : ℚ) (sid pair : String) (cum : ℚ) (c : Ctx) :
    (handleOpen bank sid pair cum c).writes =
      c.writes ++ (commitPendings c.roster c.roster).2.2 := rfl

theorem handleAdd_writes (bank : ℚ) (sid pair : String) (cum : ℚ) (c : Ctx) :
    (handleAdd bank sid pair cum c).writes = c.writes := rfl

theorem handleClose_writes (bank days : ℚ) (sid pair : String) (cum pnl : ℚ) (c : Ctx) :
    ∃ l, (handleClose bank days sid pair cum pnl c).writes = c.writes ++ l ∧
      ∀ x ∈ l, x.isUpsert = true := by
  simp only [handleClose]
  rw [accrue_writes_eq]
  refine ⟨_, rfl, ?_⟩
  intro x hx
  obtain ⟨q, _, rfl⟩ := List.mem_map.mp hx
  rfl

theorem stepRow_eq_open (bank days : ℚ) (c : Ctx) (rec : LogRow)
    (h : pyTrim rec.Event = "OPEN") :
    stepRow bank days c rec =
      handleOpen bank (pyTrim rec.Signal_ID) rec.Pair (to_float rec.Cum_Margin_USDT) c := by
  simp [stepRow, h]

theorem stepRow_eq_add (bank days : ℚ) (c : Ctx) (rec : LogRow)
    (h : pyTrim rec.Event = "ADD" ∨ pyTrim rec.Event = "RETEST_ADD") :
    stepRow bank days c rec =
      handleAdd bank (pyTrim rec.Signal_ID) rec.Pair (to_float rec.Cum_Margin_USDT) c := by
  rcases h with h | h <;> simp [stepRow, h]

theorem stepRow_eq_close (bank days : ℚ) (c : Ctx) (rec : LogRow)
    (h : pyTrim rec.Event = "TP_HIT" ∨ pyTrim rec.Event = "SL_HIT" ∨
      pyTrim rec.Event = "MANUAL_CLOSE") :
    stepRow bank days c rec =
      handleClose bank days (pyTrim rec.Signal_ID) rec.Pair (to_float rec.Cum_Margin_USDT)
        (to_float rec.PNL_Realized_USDT) c := by
  rcases h with h | h | h <;> simp [stepRow, h]

theorem stepRow_eq_other (bank days : ℚ) (c : Ctx) (rec : LogRow)
    (h1 : ¬pyTrim rec.Event = "OPEN")
    (h2 : ¬(pyTrim rec.Event = "ADD" ∨ pyTrim rec.Event = "RETEST_ADD"))
    (h3 : ¬(pyTrim rec.Event = "TP_HIT" ∨ pyTrim rec.Event = "SL_HIT" ∨
      pyTrim rec.Event = "MANUAL_CLOSE")) :
    stepRow bank days c rec = c := by
  simp only [stepRow]
  rw [if_neg h1, if_neg h2, if_neg h3]

theorem stepRow_writes (bank days : ℚ) (c : Ctx) (rec : LogRow) :
    ∃ l, (stepRow bank days c rec).writes = c.writes ++ l ∧
      ∀ x ∈ l, x.isUpsert = true := by
  by_cases h1 : pyTrim rec.Event = "OPEN"
  · rw [stepRow_eq_open bank days c rec h1, handleOpen_writes]
    exact ⟨_, rfl, fun x hx => commitPendings_writes _ _ x hx⟩
  · by_cases h2 : pyTrim rec.Event = "ADD" ∨ pyTrim rec.Event = "RETEST_ADD"
    · rw [stepRow_eq_add bank days c rec h2, handleAdd_writes]
      exact ⟨[], by simp, fun x hx => absurd hx (List.not_mem_nil x)⟩
    · by_cases h3 : pyTrim rec.Event = "TP_HIT" ∨ pyTrim rec.Event = "SL_HIT" ∨
        pyTrim rec.Event = "MANUAL_CLOSE"
      · rw [stepRow_eq_close bank days c rec h3]
        exact handleClose_writes bank days _ _ _ _ c
      · rw [stepRow_eq_other bank days c rec h1 h2 h3]
        exact ⟨[], by simp, fun x hx => absurd hx (List.not_mem_nil x)⟩

theorem processRows_writes (bank days : ℚ) :
    ∀ (rows : List LogRow) (c : Ctx),
      ∃ l, ((rows.foldl (stepRow bank days) c).writes = c.writes ++ l ∧
        ∀ x ∈ l, x.isUpsert = true) := by
  intro rows
  induction rows with
  | nil =>
    intro c
    exact ⟨[], by simp, fun x hx => absurd hx (List.not_mem_nil x)⟩
  | cons r t ih =>
    intro c
    obtain ⟨l1, hl1, hu1⟩ := stepRow_writes bank days c r
    obtain ⟨l2, hl2, hu2⟩ := ih (stepRow bank days c r)
    refine ⟨l1 ++ l2, ?_, ?_⟩
    · rw [List.foldl_cons, hl2, hl1, List.append_assoc]
    · intro x hx
      rcases List.mem_append.mp hx with h | h
      · exact hu1 x h
      · exact hu2 x h

theorem sum_shares (p td : ℚ) (l : List (Int × ℚ)) :
    (l.map (fun q => p * (q.2 / td))).sum = p * ((l.map Prod.snd).sum / td) := by
  induction l with
  | nil => simp
  | cons hd t ih =>
    simp only [List.map_cons, List.sum_cons, ih]
    ring

theorem sum_snd_nonneg {l : List (Int × ℚ)} (hpos : ∀ q ∈ l, 0 ≤ q.2) :
    0 ≤ (l.map Prod.snd).sum := by
  induction l with
  | nil => simp
  | cons hd t ih =>
    simp only [List.map_cons, List.sum_cons]
    have h1 := hpos hd (List.mem_cons_self _ _)
    have h2 := ih (fun q hq => hpos q (List.mem_cons_of_mem _ hq))
    linarith

theorem sum_snd_pos {l : List (Int × ℚ)} (hpos : ∀ q ∈ l, 0 < q.2) (hne : l ≠ []) :
    0 < (l.map Prod.snd).sum := by
  cases l with
  | nil => exact absurd rfl hne
  | cons hd t =>
    simp only [List.map_cons, List.sum_cons]
    have h1 : 0 < hd.2 := hpos hd (List.mem_cons_self _ _)
    have h2 : 0 ≤ (t.map Prod.snd).sum :=
      sum_snd_nonneg (fun q hq => le_of_lt (hpos q (List.mem_cons_of_mem _ hq)))
    linarith

theorem sum_filter_le (pred : Int × ℚ → Bool) {l : List (Int × ℚ)}
    (hpos : ∀ q ∈ l, 0 ≤ q.2) :
    ((l.filter pred).map Prod.snd).sum ≤ (l.map Prod.snd).sum := by
  induction l with
  | nil => simp
  | cons hd t ih =>
    have h1 := hpos hd (List.mem_cons_self _ _)
    have h2 := ih (fun q hq => hpos q (List.mem_cons_of_mem _ hq))
    by_cases hp : pred hd
    · simp only [List.filter_cons, hp, if_true, List.map_cons, List.sum_cons]
      linarith
    · simp only [List.filter_cons, hp, List.map_cons, List.sum_cons]
      simp only [Bool.false_eq_true, if_false]
      linarith

theorem sum_filter_lt (pred : Int × ℚ → Bool) {l : List (Int × ℚ)} {q0 : Int × ℚ}
    (hpos : ∀ q ∈ l, 0 < q.2) (hq0 : q0 ∈ l) (hp0 : pred q0 = false) :
    ((l.filter pred).map Prod.snd).sum ≤ (l.map Prod.snd).sum - q0.2 := by
  induction l with
  | nil => cases hq0
  | cons hd t ih =>
    have h1 := hpos hd (List.mem_cons_self _ _)
    have htl : ∀ q ∈ t, 0 < q.2 := fun q hq => hpos q (List.mem_cons_of_mem _ hq)
    rcases List.mem_cons.mp hq0 with heq | hmem
    · subst heq
      simp only [List.filter_cons, hp0, Bool.false_eq_true, if_false, List.map_cons,
        List.sum_cons]
      have := sum_filter_le pred (l := t) (fun q hq => le_of_lt (htl q hq))
      linarith
    · by_cases hp : pred hd
      · simp only [List.filter_cons, hp, if_true, List.map_cons, List.sum_cons]
        have := ih htl hmem
        linarith
      · simp only [List.filter_cons, hp, Bool.false_eq_true, if_false, List.map_cons,
          List.sum_cons]
        have := ih htl hmem
        linarith

theorem isUpsert_not_cursor {x : W} (h : x.isUpsert = true) : x.isSetCursor = false := by
  cases x <;> simp [W.isUpsert, W.isSetCursor] at h ⊢

/-! ## Claim theorems -/

/-- Claim C6: running a poll cycle when the persisted cursor already equals
the row count of an unchanged log is a no-op — no notifications, no roster
mutation, no state write, cursor and profit total unchanged; re-running in
that state is idempotent. -/
theorem poll_converged_noop (bank days : ℚ) (now : String) (w : World)
    (h : w.last_row = w.log.length + 1) :
    poll_and_broadcast bank days now w = (w, []) := by
  have h0 : ¬(w.last_row = 0) := by omega
  simp only [poll_and_broadcast]
  rw [if_neg h0, if_pos (by omega)]

/-- Claim C6 witness: the converged two-row world is returned unchanged
with an empty write trace. -/
theorem poll_converged_noop_witness :
    poll_and_broadcast 1000 1 "t" worldConv = (worldConv, []) :=
  poll_converged_noop 1000 1 "t" worldConv (by decide)

/-- Claim C9: on the first-ever poll cycle (persisted cursor 0) the whole
existing history is skipped — the cursor is set to the current total row
count, the profit total is reset to 0, and no notification is sent and no
roster row or open-position entry is touched. -/
theorem poll_first_run_skips_history (bank days : ℚ) (now : String) (w : World)
    (h : w.last_row = 0) :
    (poll_and_broadcast bank days now w).1.last_row = w.log.length + 1 ∧
    (poll_and_broadcast bank days now w).1.profit30_total = 0 ∧
    (poll_and_broadcast bank days now w).1.roster = w.roster ∧
    (poll_and_broadcast bank days now w).1.openPos = w.openPos ∧
    ∀ x ∈ (poll_and_broadcast bank days now w).2,
      x.isSend = false ∧ x.isUpsert = false := by
  have hb : poll_and_broadcast bank days now w =
      ({ w with
          last_row := w.log.length + 1
          profit30_total := 0
          start_utc := if w.start_utc = "" then now else w.start_utc },
       [W.setCursor (w.log.length + 1),
        W.setStart (if w.start_utc = "" then now else w.start_utc), W.setProfit 0]) := by
    simp only [poll_and_broadcast, if_pos h]
  rw [hb]
  refine ⟨rfl, rfl, rfl, rfl, ?_⟩
  intro x hx
  simp only [List.mem_cons, List.not_mem_nil, or_false] at hx
  rcases hx with rfl | rfl | rfl <;> exact ⟨rfl, rfl⟩

/-- Claim C9 witness: a fresh world (cursor 0, two history rows, stale
profit total 7) is reset to cursor 3 and profit 0 with no sends and no
roster writes. -/
theorem poll_first_run_skips_history_witness :
    (poll_and_broadcast 1000 1 "t" worldFresh).1.last_row = worldFresh.log.length + 1 ∧
    (poll_and_broadcast 1000 1 "t" worldFresh).1.profit30_total = 0 ∧
    (poll_and_broadcast 1000 1 "t" worldFresh).1.roster = worldFresh.roster ∧
    (poll_and_broadcast 1000 1 "t" worldFresh).1.openPos = worldFresh.openPos ∧
    ∀ x ∈ (poll_and_broadcast 1000 1 "t" worldFresh).2,
      x.isSend = false ∧ x.isUpsert = false :=
  poll_first_run_skips_history 1000 1 "t" worldFresh (by decide)

/-- Claim C7: the available-to-withdraw amount is computed as
`max(0, accrued − paid − reinvested)` and is therefore never negative for
any investor record reachable by any sequence of balance/payout/transfer
operations. -/
theorem bonus_avail_nonneg (ops : List RosterOp) (init : List Investor) (u : Investor)
    (h : u ∈ applyOps ops init) : 0 ≤ bonus_avail u :=
  le_max_left 0 _

/-- Claim C7 witness: after a bonus accrual of 5 to investor A, the
available bonus of the resulting record is nonnegative. -/
theorem bonus_avail_nonneg_witness :
    (applyUpd none none none none (some (invA.bonus_acc + 5)) none none invA ∈
      applyOps [RosterOp.accrue 1 5] [invA]) ∧
    0 ≤ bonus_avail (applyUpd none none none none (some (invA.bonus_acc + 5)) none none invA) :=
  ⟨List.mem_singleton.mpr rfl,
    bonus_avail_nonneg [RosterOp.accrue 1 5] [invA] _ (List.mem_singleton.mpr rfl)⟩

/-- Claim C8: a log cell whose text does not parse as a float is converted
to `0.0` by `to_float` instead of raising, and row processing behaves as if
the cell read "0", so the row and the rest of the batch are still
processed. -/
theorem to_float_unparseable_defaults_zero (s : String)
    (h : pyFloat (pyStrip (s.data.map commaToDot)) = none) :
    to_float s = 0 ∧
    (∀ (bank days : ℚ) (c : Ctx) (rec : LogRow), rec.Cum_Margin_USDT = s →
      stepRow bank days c rec = stepRow bank days c {rec with Cum_Margin_USDT := "0"}) ∧
    (∀ (bank days : ℚ) (c : Ctx) (rec : LogRow), rec.PNL_Realized_USDT = s →
      stepRow bank days c rec = stepRow bank days c {rec with PNL_Realized_USDT := "0"}) := by
  have h0 : to_float s = 0 := by simp [to_float, h]
  have hz : to_float "0" = 0 := by decide
  refine ⟨h0, ?_, ?_⟩
  · intro bank days c rec hrec
    obtain ⟨ev, sid, cum, pnl, pair⟩ := rec
    simp only at hrec
    subst hrec
    simp only [stepRow, h0, hz]
  · intro bank days c rec hrec
    obtain ⟨ev, sid, cum, pnl, pair⟩ := rec
    simp only at hrec
    subst hrec
    simp only [stepRow, h0, hz]

/-- Claim C8 witness: the cell "oops" is unparseable, converts to 0, and a
`TP_HIT` row carrying it is processed like one carrying "0". -/
theorem to_float_unparseable_defaults_zero_witness :
    to_float "oops" = 0 ∧
    (∀ (bank days : ℚ) (c : Ctx) (rec : LogRow), rec.Cum_Margin_USDT = "oops" →
      stepRow bank days c rec = stepRow bank days c {rec with Cum_Margin_USDT := "0"}) ∧
    (∀ (bank days : ℚ) (c : Ctx) (rec : LogRow), rec.PNL_Realized_USDT = "oops" →
      stepRow bank days c rec = stepRow bank days c {rec with PNL_Realized_USDT := "0"}) :=
  to_float_unparseable_defaults_zero "oops" (by decide)

/-- Claim C3: the write trace of every poll cycle splits into a body (all
the roster writes and chat sends, with no cursor write) followed by the
single final `set_state` block; the cursor cell is written at most once —
exactly once when a non-empty batch is processed — and always after every
row of the batch was handled, so a cycle abandoned by an exception before
that final block has not advanced the persisted cursor. -/
theorem poll_cursor_once_after_batch (bank days : ℚ) (now : String) (w : World) :
    ∃ body rest, (poll_and_broadcast bank days now w).2 = body ++ rest ∧
      (∀ x ∈ body, x.isSetCursor = false) ∧
      (∀ x ∈ rest, x.isUpsert = false ∧ x.isSend = false) ∧
      rest.countP W.isSetCursor ≤ 1 ∧
      (w.last_row ≠ 0 → w.last_row < w.log.length + 1 →
        rest.countP W.isSetCursor = 1) := by
  by_cases h0 : w.last_row = 0
  · refine ⟨[], (poll_and_broadcast bank days now w).2, rfl, ?_, ?_, ?_, ?_⟩
    · intro x hx; cases hx
    · simp only [poll_and_broadcast, if_pos h0]
      intro x hx
      simp only [List.mem_cons, List.not_mem_nil, or_false] at hx
      rcases hx with rfl | rfl | rfl <;> exact ⟨rfl, rfl⟩
    · simp only [poll_and_broadcast, if_pos h0]
      simp [List.countP_cons, W.isSetCursor]
    · intro hne _
      exact absurd h0 hne
  · by_cases h1 : w.log.length + 1 ≤ w.last_row
    · have hb : (poll_and_broadcast bank days now w).2 = [] := by
        simp only [poll_and_broadcast, if_neg h0, if_pos h1]
      refine ⟨[], [], by simp [hb], ?_, ?_, ?_, ?_⟩
      · intro x hx; cases hx
      · intro x hx; cases hx
      · simp
      · intro _ hlt; omega
    · have hb : (poll_and_broadcast bank days now w).2 =
          ((w.log.drop (w.last_row - 1)).foldl (stepRow bank days)
              ⟨w.roster, w.roster, w.openPos, w.profit30_total, [], []⟩).writes ++
            (((w.log.drop (w.last_row - 1)).foldl (stepRow bank days)
              ⟨w.roster, w.roster, w.openPos, w.profit30_total, [], []⟩).msgs.map
                (fun p => W.send p.1) ++
            [W.setCursor (w.log.length + 1),
             W.setProfit ((w.log.drop (w.last_row - 1)).foldl (stepRow bank days)
              ⟨w.roster, w.roster, w.openPos, w.profit30_total, [], []⟩).profit30]) := by
        simp only [poll_and_broadcast, if_neg h0, if_neg h1]
        rw [List.append_assoc]
      obtain ⟨l, hl, hup⟩ := processRows_writes bank days (w.log.drop (w.last_row - 1))
        ⟨w.roster, w.roster, w.openPos, w.profit30_total, [], []⟩
      refine ⟨((w.log.drop (w.last_row - 1)).foldl (stepRow bank days)
              ⟨w.roster, w.roster, w.openPos, w.profit30_total, [], []⟩).writes ++
            ((w.log.drop (w.last_row - 1)).foldl (stepRow bank days)
              ⟨w.roster, w.roster, w.openPos, w.profit30_total, [], []⟩).msgs.map
                (fun p => W.send p.1),
          [W.setCursor (w.log.length + 1),
           W.setProfit ((w.log.drop (w.last_row - 1)).foldl (stepRow bank days)
              ⟨w.roster, w.roster, w.openPos, w.profit30_total, [], []⟩).profit30],
          ?_, ?_, ?_, ?_, ?_⟩
      · rw [hb, List.append_assoc]
      · intro x hx
        rcases List.mem_append.mp hx with hx | hx
        · rw [hl] at hx
          simp only [List.nil_append] at hx
          exact isUpsert_not_cursor (hup x hx)
        · obtain ⟨q, _, rfl⟩ := List.mem_map.mp hx
          rfl
      · intro x hx
        simp only [List.mem_cons, List.not_mem_nil, or_false] at hx
        rcases hx with rfl | rfl <;> exact ⟨rfl, rfl⟩
      · simp [List.countP_cons, W.isSetCursor]
      · intro _ _
        simp [List.countP_cons, W.isSetCursor]

/-- Claim C3 witness: for the running two-row world the cycle's trace
splits as stated. -/
theorem poll_cursor_once_after_batch_witness :
    ∃ body rest, (poll_and_broadcast 1000 1 "t" worldRun).2 = body ++ rest ∧
      (∀ x ∈ body, x.isSetCursor = false) ∧
      (∀ x ∈ rest, x.isUpsert = false ∧ x.isSend = false) ∧
      rest.countP W.isSetCursor ≤ 1 ∧
      (worldRun.last_row ≠ 0 → worldRun.last_row < worldRun.log.length + 1 →
        rest.countP W.isSetCursor = 1) :=
  poll_cursor_once_after_batch 1000 1 "t" worldRun

theorem commitFn_chat_id (u : Investor) : (commitFn u).chat_id = u.chat_id := by
  unfold commitFn
  split <;> rfl

theorem findUser_map_commitFn {l : List Investor} (hnd : (l.map (·.chat_id)).Nodup)
    {u : Investor} (hu : u ∈ l) :
    findUser (l.map commitFn) u.chat_id = some (commitFn u) := by
  induction l with
  | nil => cases hu
  | cons a t ih =>
    simp only [List.map_cons, List.nodup_cons] at hnd
    rcases List.mem_cons.mp hu with rfl | hu'
    · rw [List.map_cons]
      exact findUser_cons_pos (commitFn_chat_id u)
    · have hne : a.chat_id ≠ u.chat_id :=
        fun e => hnd.1 (e ▸ List.mem_map.mpr ⟨u, hu', rfl⟩)
      rw [List.map_cons, findUser_cons_neg (by rw [commitFn_chat_id]; exact hne),
        ih hnd.2 hu']

/-- Claim C4: processing an `OPEN` row commits, for every active investor
with a positive pending deposit, the pending value into the deposit and
zeroes the pending field (one immediate roster write per such investor,
already visible in the cohort snapshot taken in the same row); pending is a
target value, so whatever was last written to it is what gets committed. -/
theorem open_commits_pending (bank days : ℚ) (c : Ctx) (rec : LogRow)
    (hev : pyTrim rec.Event = "OPEN")
    (hnd : (c.roster.map (·.chat_id)).Nodup) :
    (stepRow bank days c rec).roster = c.roster.map commitFn ∧
    (∀ u ∈ c.roster, u.active ∧ 0 < u.pending →
      findUser (stepRow bank days c rec).roster u.chat_id =
        some {u with deposit := u.pending, pending := 0}) ∧
    posLookup (stepRow bank days c rec).openPos (pyTrim rec.Signal_ID) =
      some ⟨to_float rec.Cum_Margin_USDT,
        (activePositive (c.roster.map commitFn)).map (fun u => (u.chat_id, u.deposit)),
        (activePositive (c.roster.map commitFn)).map (·.chat_id)⟩ ∧
    (stepRow bank days c rec).writes = c.writes ++
      (c.roster.filter (fun u => decide (u.active ∧ 0 < u.pending))).map
        (fun u => W.upsert u.chat_id) := by
  rw [stepRow_eq_open bank days c rec hev]
  have hcp := commitPendings_spec c.roster [] (by simpa using hnd)
  simp only [List.nil_append] at hcp
  simp only [handleOpen, hcp]
  refine ⟨trivial, ?_, ?_, trivial⟩
  · intro u hu hcond
    rw [findUser_map_commitFn hnd hu]
    have : commitFn u = {u with deposit := u.pending, pending := 0} := by
      simp [commitFn, hcond]
    rw [this]
  · exact posLookup_posSet_self _ _ _

/-- Claim C4 witness: investor C has pending 300 (the last value written);
on `OPEN` the roster row becomes deposit 300, pending 0, with the
corresponding immediate write and snapshot. -/
theorem open_commits_pending_witness :
    ((stepRow 1000 1 ctxPend rowOpenS1).roster = ctxPend.roster.map commitFn ∧
    (∀ u ∈ ctxPend.roster, u.active ∧ 0 < u.pending →
      findUser (stepRow 1000 1 ctxPend rowOpenS1).roster u.chat_id =
        some {u with deposit := u.pending, pending := 0}) ∧
    posLookup (stepRow 1000 1 ctxPend rowOpenS1).openPos (pyTrim rowOpenS1.Signal_ID) =
      some ⟨to_float rowOpenS1.Cum_Margin_USDT,
        (activePositive (ctxPend.roster.map commitFn)).map (fun u => (u.chat_id, u.deposit)),
        (activePositive (ctxPend.roster.map commitFn)).map (·.chat_id)⟩ ∧
    (stepRow 1000 1 ctxPend rowOpenS1).writes = ctxPend.writes ++
      (ctxPend.roster.filter (fun u => decide (u.active ∧ 0 < u.pending))).map
        (fun u => W.upsert u.chat_id)) :=
  open_commits_pending 1000 1 ctxPend rowOpenS1 (by decide) (by decide)

/-- Claim C1: on a close event whose signal id has a non-empty cohort
snapshot (with the positive entry-time deposits the snapshot construction
guarantees, every member still present in the roster), the amounts credited
to the members' accrued-bonus fields sum exactly to
`realized_PnL × 0.30`, each member's share being proportional to their
entry-time deposit over the cohort's total entry-time deposit. -/
theorem close_distributes_pool (bank days : ℚ) (c : Ctx) (rec : LogRow) (snap : OpenPos)
    (hev : pyTrim rec.Event = "TP_HIT" ∨ pyTrim rec.Event = "SL_HIT" ∨
      pyTrim rec.Event = "MANUAL_CLOSE")
    (hsnap : posLookup c.openPos (pyTrim rec.Signal_ID) = some snap)
    (husers : snap.users ≠ [])
    (hne : snap.snapshot ≠ [])
    (hpos : ∀ q ∈ snap.snapshot, 0 < q.2)
    (hfound : ∀ q ∈ snap.snapshot, (findUser c.roster q.1).isSome) :
    bonusSum (stepRow bank days c rec).roster =
      bonusSum c.roster + to_float rec.PNL_Realized_USDT * (3 / 10) := by
  rw [stepRow_eq_close bank days c rec hev]
  have hie : snap.users.isEmpty = false := by
    cases hu : snap.users with
    | nil => exact absurd hu husers
    | cons a t => rfl
  simp only [handleClose, hsnap, hie, Bool.false_eq_true, if_false]
  rw [accrue_bonusSum]
  dsimp only
  have hS : 0 < (snap.snapshot.map Prod.snd).sum := sum_snd_pos hpos hne
  have hfilter : snap.snapshot.filter (fun q => (findUser c.roster q.1).isSome) =
      snap.snapshot := List.filter_eq_self.mpr (fun q hq => hfound q hq)
  rw [hfilter, sum_shares, if_neg (ne_of_gt hS), div_self (ne_of_gt hS), mul_one]

/-- Claim C1 witness: on `TP_HIT` with PnL 50 over the snapshot
[(1, 600), (2, 400)], the accrued bonuses rise by exactly 50 × 0.30. -/
theorem close_distributes_pool_witness :
    bonusSum (stepRow 1000 1 ctxS1 rowTpS1).roster =
      bonusSum ctxS1.roster + to_float rowTpS1.PNL_Realized_USDT * (3 / 10) :=
  close_distributes_pool 1000 1 ctxS1 rowTpS1 snapS1 (Or.inl (by decide)) (by decide)
    (by decide) (by decide) (by decide) (by decide)

/-- Claim C2: a cohort fixed at `OPEN` is untouched by `ADD`/`RETEST_ADD`
(only the cumulative margin is overwritten — membership and entry-time
deposit snapshot stay), roster mutations never touch the open-position
map, and on the close each member's credit is computed from their
entry-time snapshot deposit, not from their current roster deposit. -/
theorem cohort_fixed_from_open (bank days : ℚ) (c : Ctx) (rec : LogRow) (snap : OpenPos)
    (hsnap : posLookup c.openPos (pyTrim rec.Signal_ID) = some snap)
    (husers : snap.users ≠ []) :
    ((pyTrim rec.Event = "ADD" ∨ pyTrim rec.Event = "RETEST_ADD") →
      posLookup (stepRow bank days c rec).openPos (pyTrim rec.Signal_ID) =
        some ⟨to_float rec.Cum_Margin_USDT, snap.snapshot, snap.users⟩) ∧
    ((pyTrim rec.Event = "TP_HIT" ∨ pyTrim rec.Event = "SL_HIT" ∨
        pyTrim rec.Event = "MANUAL_CLOSE") →
      (snap.snapshot.map Prod.fst).Nodup →
      ∀ uid dep u, (uid, dep) ∈ snap.snapshot → findUser c.roster uid = some u →
        findUser (stepRow bank days c rec).roster uid =
          some {u with bonus_acc := u.bonus_acc +
            (to_float rec.PNL_Realized_USDT * (3 / 10)) *
              (dep / (if (snap.snapshot.map Prod.snd).sum = 0 then 1
                      else (snap.snapshot.map Prod.snd).sum))}) := by
  have hie : snap.users.isEmpty = false := by
    cases hu : snap.users with
    | nil => exact absurd hu husers
    | cons a t => rfl
  constructor
  · intro hev
    rw [stepRow_eq_add bank days c rec hev]
    simp only [handleAdd, hsnap, Option.getD_some, hie, Bool.false_eq_true, if_false]
    exact posLookup_posSet_self _ _ _
  · intro hev hnd uid dep u hmem hf
    rw [stepRow_eq_close bank days c rec hev]
    simp only [handleClose, hsnap, hie, Bool.false_eq_true, if_false]
    exact accrue_member days _ _ _ _ _ _ snap.snapshot _ uid dep u hnd hmem hf

/-- Claim C2 witness: with the stored cohort for S1, an `ADD` row keeps the
snapshot and members; on `TP_HIT`, member 1's credit is computed from the
entry-time deposit 600 recorded in the snapshot. -/
theorem cohort_fixed_from_open_witness :
    (((pyTrim rowAddS1.Event = "ADD" ∨ pyTrim rowAddS1.Event = "RETEST_ADD") →
      posLookup (stepRow 1000 1 ctxS1 rowAddS1).openPos (pyTrim rowAddS1.Signal_ID) =
        some ⟨to_float rowAddS1.Cum_Margin_USDT, snapS1.snapshot, snapS1.users⟩) ∧
    ((pyTrim rowAddS1.Event = "TP_HIT" ∨ pyTrim rowAddS1.Event = "SL_HIT" ∨
        pyTrim rowAddS1.Event = "MANUAL_CLOSE") →
      (snapS1.snapshot.map Prod.fst).Nodup →
      ∀ uid dep u, (uid, dep) ∈ snapS1.snapshot → findUser ctxS1.roster uid = some u →
        findUser (stepRow 1000 1 ctxS1 rowAddS1).roster uid =
          some {u with bonus_acc := u.bonus_acc +
            (to_float rowAddS1.PNL_Realized_USDT * (3 / 10)) *
              (dep / (if (snapS1.snapshot.map Prod.snd).sum = 0 then 1
                      else (snapS1.snapshot.map Prod.snd).sum))})) :=
  cohort_fixed_from_open 1000 1 ctxS1 rowAddS1 snapS1 (by decide) (by decide)

/-- Claim C5: when an `ADD`/`RETEST_ADD` or close event finds no stored
cohort for its signal id, the handler falls back to the currently-active
investors with positive deposit — an `ADD` stores them with their current
deposits as the cohort, and a close notifies exactly them — and processing
continues instead of failing. -/
theorem lost_cohort_falls_back (bank days : ℚ) (c : Ctx) (rec : LogRow)
    (hnone : posLookup c.openPos (pyTrim rec.Signal_ID) = none) :
    ((pyTrim rec.Event = "ADD" ∨ pyTrim rec.Event = "RETEST_ADD") →
      c.usersAll = c.roster →
      posLookup (stepRow bank days c rec).openPos (pyTrim rec.Signal_ID) =
        some ⟨to_float rec.Cum_Margin_USDT,
          (activePositive c.roster).map (fun u => (u.chat_id, u.deposit)),
          (activePositive c.roster).map (·.chat_id)⟩) ∧
    ((pyTrim rec.Event = "TP_HIT" ∨ pyTrim rec.Event = "SL_HIT" ∨
        pyTrim rec.Event = "MANUAL_CLOSE") →
      c.msgs = [] →
      ∀ x : Int, (x ∈ (stepRow bank days c rec).msgs.map Prod.fst ↔
        x ∈ (activePositive c.roster).map (·.chat_id))) := by
  constructor
  · intro hev hua
    rw [stepRow_eq_add bank days c rec hev]
    simp only [handleAdd, hnone, Option.getD_none, hua, List.isEmpty_nil, if_true]
    exact posLookup_posSet_self _ _ _
  · intro hev hmsgs x
    rw [stepRow_eq_close bank days c rec hev]
    simp only [handleClose, hnone, List.isEmpty_nil, if_true]
    rw [accrue_keys]
    dsimp only
    rw [hmsgs]
    simp only [List.map_nil, List.not_mem_nil, false_or]
    constructor
    · rintro ⟨q, hq, rfl, _⟩
      obtain ⟨u, hu, rfl⟩ := List.mem_map.mp hq
      exact List.mem_map.mpr ⟨u, hu, rfl⟩
    · intro hx
      obtain ⟨u, hu, rfl⟩ := List.mem_map.mp hx
      refine ⟨(u.chat_id, u.deposit), List.mem_map.mpr ⟨u, hu, rfl⟩, rfl, ?_⟩
      exact findUser_isSome_of_mem (List.mem_filter.mp hu).1

/-- Claim C5 witness: with no stored cohort, an `ADD` for S1 snapshots the
active investors A and B at their current deposits, and a `TP_HIT`
notifies exactly them. -/
theorem lost_cohort_falls_back_witness :
    (((pyTrim rowAddS1.Event = "ADD" ∨ pyTrim rowAddS1.Event = "RETEST_ADD") →
      ctxNone.usersAll = ctxNone.roster →
      posLookup (stepRow 1000 1 ctxNone rowAddS1).openPos (pyTrim rowAddS1.Signal_ID) =
        some ⟨to_float rowAddS1.Cum_Margin_USDT,
          (activePositive ctxNone.roster).map (fun u => (u.chat_id, u.deposit)),
          (activePositive ctxNone.roster).map (·.chat_id)⟩) ∧
    ((pyTrim rowAddS1.Event = "TP_HIT" ∨ pyTrim rowAddS1.Event = "SL_HIT" ∨
        pyTrim rowAddS1.Event = "MANUAL_CLOSE") →
      ctxNone.msgs = [] →
      ∀ x : Int, (x ∈ (stepRow 1000 1 ctxNone rowAddS1).msgs.map Prod.fst ↔
        x ∈ (activePositive ctxNone.roster).map (·.chat_id)))) :=
  lost_cohort_falls_back 1000 1 ctxNone rowAddS1 (by decide)

/-- Claim C10: on a close, a snapshot member whose chat id is no longer in
the roster is skipped — no bonus write and no queued notification for them,
and no row is created for them — and their share is not redistributed, so
with a positive pool and a positive entry-time deposit for the missing
member the total credited is strictly below `realized_PnL × 0.30`. -/
theorem close_skips_missing_member (bank days : ℚ) (c : Ctx) (rec : LogRow)
    (snap : OpenPos) (uid0 : Int) (d0 : ℚ)
    (hev : pyTrim rec.Event = "TP_HIT" ∨ pyTrim rec.Event = "SL_HIT" ∨
      pyTrim rec.Event = "MANUAL_CLOSE")
    (hsnap : posLookup c.openPos (pyTrim rec.Signal_ID) = some snap)
    (husers : snap.users ≠ [])
    (hmem : (uid0, d0) ∈ snap.snapshot)
    (hmiss : findUser c.roster uid0 = none)
    (hpos : ∀ q ∈ snap.snapshot, 0 < q.2)
    (hpnl : 0 < to_float rec.PNL_Realized_USDT)
    (hmsgs : c.msgs = []) :
    bonusSum (stepRow bank days c rec).roster <
      bonusSum c.roster + to_float rec.PNL_Realized_USDT * (3 / 10) ∧
    uid0 ∉ (stepRow bank days c rec).msgs.map Prod.fst ∧
    findUser (stepRow bank days c rec).roster uid0 = none := by
  rw [stepRow_eq_close bank days c rec hev]
  have hie : snap.users.isEmpty = false := by
    cases hu : snap.users with
    | nil => exact absurd hu husers
    | cons a t => rfl
  simp only [handleClose, hsnap, hie, Bool.false_eq_true, if_false]
  have hS : 0 < (snap.snapshot.map Prod.snd).sum :=
    sum_snd_pos hpos (List.ne_nil_of_mem hmem)
  have hd0 : 0 < d0 := hpos (uid0, d0) hmem
  have hpool : 0 < to_float rec.PNL_Realized_USDT * (3 / 10) :=
    mul_pos hpnl (by norm_num)
  refine ⟨?_, ?_, ?_⟩
  · rw [accrue_bonusSum]
    dsimp only
    rw [sum_shares, if_neg (ne_of_gt hS)]
    have hpred : (fun q : Int × ℚ => (findUser c.roster q.1).isSome) (uid0, d0) = false := by
      show (findUser c.roster uid0).isSome = false
      rw [hmiss]
      rfl
    have hSf := sum_filter_lt (fun q : Int × ℚ => (findUser c.roster q.1).isSome)
      hpos hmem hpred
    have hlt : ((snap.snapshot.filter
        (fun q : Int × ℚ => (findUser c.roster q.1).isSome)).map Prod.snd).sum <
        (snap.snapshot.map Prod.snd).sum := by linarith
    have hdiv : ((snap.snapshot.filter
        (fun q : Int × ℚ => (findUser c.roster q.1).isSome)).map Prod.snd).sum /
        (snap.snapshot.map Prod.snd).sum < 1 := (div_lt_one hS).mpr hlt
    have hmul := mul_lt_mul_of_pos_left hdiv hpool
    rw [mul_one] at hmul
    linarith
  · rw [accrue_keys]
    dsimp only
    rw [hmsgs]
    simp only [List.map_nil, List.not_mem_nil, false_or]
    rintro ⟨q, hq, he, hs⟩
    rw [he, hmiss] at hs
    simp at hs
  · rw [← Option.not_isSome_iff_eq_none, accrue_isSome]
    dsimp only
    rw [hmiss]
    simp

/-- Claim C10 witness: member 1 (entry deposit 600) was deleted from the
roster; on `TP_HIT` with PnL 50 the credited total stays below 15, member 1
gets no message, and no roster row is created for them. -/
theorem close_skips_missing_member_witness :
    (bonusSum (stepRow 1000 1 ctxMiss rowTpS1).roster <
      bonusSum ctxMiss.roster + to_float rowTpS1.PNL_Realized_USDT * (3 / 10) ∧
    (1 : Int) ∉ (stepRow 1000 1 ctxMiss rowTpS1).msgs.map Prod.fst ∧
    findUser (stepRow 1000 1 ctxMiss rowTpS1).roster 1 = none) :=
  close_skips_missing_member 1000 1 ctxMiss rowTpS1 snapS1 1 600 (Or.inl (by decide))
    (by decide) (by decide) (by decide) (by decide) (by decide) (by decide) (by decide)
